import Mathlib

/-!
Verification of the event-scoring pipeline of the CulturalRecommenderSystem
repository: a shallow embedding of `db.py`, `FuzzyScorer.py` and
`fuzzy_sets.py`.

Numeric values are modelled by exact rationals (`ℚ`); the two similarity
scores that take square roots (`_vector_similarity`, `score_description`)
live in `ℝ`.  Python `datetime` values are modelled as timestamps in
seconds (`ℚ`), so that `(t1 - t2).total_seconds()` is plain subtraction.
Fallible Python code (attribute errors on objects that lack an attribute,
`.get` on `None`) is modelled with `Except PyErr`.
-/

/-- Python's `max(0.0, min(1.0, x))` on rationals. -/
def clamp01 (x : ℚ) : ℚ := max 0 (min 1 x)

/-- Python's `max(0.0, min(1.0, x))` on reals. -/
noncomputable def clamp01R (x : ℝ) : ℝ := max 0 (min 1 x)

/-- The Python exceptions that the embedded code can raise. -/
inductive PyErr where
  | attributeError : PyErr
  | typeError : PyErr
deriving DecidableEq

namespace Db

/-- `db.Event`.  `start_hour` is the event's start timestamp in seconds;
`event_length` is the duration in hours, as in the source.  The mutable
`score` field is initialised to `0` by `__init__`. -/
structure Event where
  name : String
  type : String
  price : ℚ
  distance : ℚ
  popularity : ℚ
  description : String
  event_length : ℚ
  start_hour : ℚ
  score : ℚ := 0
deriving DecidableEq

/-- `Event.get_vector`: `[self.price, self.distance, self.popularity]`. -/
def Event.get_vector (e : Event) : List ℚ := [e.price, e.distance, e.popularity]

/-- `db.User`: the list of past attended events plus the stored text
profile.  `update()` keeps the three mean fields equal to the means of the
current event list, so they are modelled as derived functions below. -/
structure User where
  events : List Event
  text_profile_descriptions : List String
deriving DecidableEq

/-- `User.mean_price` as maintained by `User.update`. -/
def User.mean_price (u : User) : ℚ := (u.events.map Event.price).sum / u.events.length

/-- `User.mean_distance` as maintained by `User.update`. -/
def User.mean_distance (u : User) : ℚ := (u.events.map Event.distance).sum / u.events.length

/-- `User.mean_popularity` as maintained by `User.update`. -/
def User.mean_popularity (u : User) : ℚ := (u.events.map Event.popularity).sum / u.events.length

/-- `Preferences.get_category_interest`: `self.categories.get(category, 0)`.
`db.Preferences.__init__` defaults `categories` to `None`, and calling
`.get` on `None` raises `AttributeError`; a present mapping is a Python
dict, modelled as an association list. -/
def get_category_interest (categories : Option (List (String × ℚ))) (category : String) :
    Except PyErr ℚ :=
  match categories with
  | none => Except.error PyErr.attributeError
  | some m => Except.ok ((List.lookup category m).getD 0)

end Db

namespace FuzzyScorer

open Db

/-- `FuzzyScorer.normalize(value, min_val, max_val)`. -/
def normalize (value min_val max_val : ℚ) : ℚ :=
  if max_val = min_val then 1/2
  else max 0 (min 1 ((value - min_val) / (max_val - min_val)))

/-- `FuzzyScorer.normalize` on reals (used by the `ℝ`-valued scorers). -/
noncomputable def normalizeR (value min_val max_val : ℝ) : ℝ :=
  if max_val = min_val then 1/2
  else max 0 (min 1 ((value - min_val) / (max_val - min_val)))

/-- `FuzzyScorer.score_budget`.  The budget mapping is the
`preferences.budget_for_category` dict the method reads, with the
`"global"` fallback key; `dict.get(k, d)` is `(List.lookup k m).getD d`. -/
def score_budget (budget_for_category : List (String × ℚ)) (ev : Event) : ℚ :=
  let cost := ev.price
  let max_b := (List.lookup ev.type budget_for_category).getD
      ((List.lookup "global" budget_for_category).getD 0)
  if cost ≤ 0 then 1
  else if max_b ≤ 0 then 0
  else clamp01 (1 - cost / max_b)

/-- `FuzzyScorer.score_distance`. -/
def score_distance (max_distance : ℚ) (ev : Event) : ℚ :=
  if max_distance ≤ 0 then 1/2
  else clamp01 (1 - ev.distance / max_distance)

/-- `FuzzyScorer.score_start_hour`.  `preferred_times` is the list of
`(start_time, length)` pairs; the start times are timestamps in seconds,
so `(event.start_hour - pref_start).total_seconds()` is subtraction and
the division by `3600.0` converts to hours. -/
def score_start_hour (preferred_times : List (ℚ × ℚ)) (ev : Event) : ℚ :=
  match preferred_times with
  | [] => 1/2
  | (pref_start, _) :: _ =>
    let diff := |ev.start_hour - pref_start| / 3600
    clamp01 (1 - normalize diff 0 3)

/-- `FuzzyScorer.score_length`.  `avg_len or 1` turns a zero average into
`1`. -/
def score_length (u : User) (ev : Event) : ℚ :=
  let avg_len := if u.events.isEmpty then ev.event_length
                 else (u.events.map Event.event_length).sum / u.events.length
  clamp01 (1 - normalize |ev.event_length - avg_len| 0 (if avg_len = 0 then 1 else avg_len))

/-- `FuzzyScorer._vector_similarity`: Euclidean distance between the
user's mean `(price, distance, popularity)` vector and the event's
vector, normalised by `sqrt(sum((max(ui, ei) or 1) ** 2))`.  The source
builds the two three-element lists and zips them; here the three
coordinates are written out. -/
noncomputable def vector_similarity (u : User) (ev : Event) : ℝ :=
  let d1 : ℚ := u.mean_price - ev.price
  let d2 : ℚ := u.mean_distance - ev.distance
  let d3 : ℚ := u.mean_popularity - ev.popularity
  let dist := Real.sqrt ((d1 : ℝ)^2 + (d2 : ℝ)^2 + (d3 : ℝ)^2)
  let m1 : ℚ := if max u.mean_price ev.price = 0 then 1 else max u.mean_price ev.price
  let m2 : ℚ := if max u.mean_distance ev.distance = 0 then 1 else max u.mean_distance ev.distance
  let m3 : ℚ := if max u.mean_popularity ev.popularity = 0 then 1 else max u.mean_popularity ev.popularity
  let max_dist := Real.sqrt ((m1 : ℝ)^2 + (m2 : ℝ)^2 + (m3 : ℝ)^2)
  normalizeR dist 0 max_dist

/-- `max(counts.values())` for the `Counter` of a list of category
labels: the largest multiplicity of any element. -/
def max_count (types : List String) : ℕ :=
  (types.map (fun t => types.count t)).foldr max 0

/-- `FuzzyScorer._history_boost`.  `preferences.get_attended_category_counts()`
is the `Counter` of the attended events' categories; an empty counter is
falsy and yields `0.0`. -/
def history_boost (attended_events : List Event) (ev : Event) : ℚ :=
  let types := attended_events.map Event.type
  if types.isEmpty then 0
  else normalize (types.count ev.type : ℚ) 0 (max_count types : ℚ)

/-- `FuzzyScorer.score_interest`: `0.6 * (1 - _vector_similarity) +
0.3 * get_category_interest + 0.1 * _history_boost`.  The category
lookup can raise `AttributeError` when `preferences.categories` is
`None`. -/
noncomputable def score_interest (u : User) (categories : Option (List (String × ℚ)))
    (attended_events : List Event) (ev : Event) : Except PyErr ℝ := do
  let base_sim : ℝ := 1 - vector_similarity u ev
  let cat_weight ← Db.get_category_interest categories ev.type
  let history := history_boost attended_events ev
  pure (base_sim * (6/10) + (cat_weight : ℝ) * (3/10) + (history : ℝ) * (1/10))

/-- Dot product of two Python vectors (`vec.dot(other)`). -/
noncomputable def dotR (a b : List ℝ) : ℝ := ((a.zip b).map (fun p => p.1 * p.2)).sum

/-- `FuzzyScorer.score_description`.  The text capability is the injected
`text_vectorizer` (a function from a description to its vector) together
with the precomputed `user_text_profile`; if either is absent the score
is the neutral `0.5`, and a zero denominator also yields `0.5`. -/
noncomputable def score_description (text_vectorizer : Option (String → List ℝ))
    (user_text_profile : Option (List ℝ)) (ev : Event) : ℝ :=
  match text_vectorizer, user_text_profile with
  | some tv, some profile =>
    let vec := tv ev.description
    let num := dotR vec profile
    let den := Real.sqrt (dotR vec vec) * Real.sqrt (dotR profile profile)
    if den = 0 then 1/2 else clamp01R (num / den)
  | _, _ => 1/2

/-- The preference state a `FuzzyScorer` reads, with every attribute the
methods access present (the shape `FuzzyScorer.py` expects of its
`preferences` argument; `db.Preferences` itself is modelled separately
at the attribute level below, since it lacks `budget_for_category`). -/
structure ScorerPrefs where
  max_distance : ℚ
  categories : Option (List (String × ℚ))
  preferred_times : List (ℚ × ℚ)
  budget_for_category : List (String × ℚ)
  attended_events : List Event

/-- The dictionary `compute_features` returns, keys in source order. -/
structure Features where
  price : ℚ
  distance : ℚ
  popularity : ℚ
  interest : ℝ
  start_hour : ℚ
  length : ℚ

/-- `FuzzyScorer.compute_features`: popularity is clamped to `[0, 100]`
and rescaled; the other entries delegate to the scorers.  Of the entries
only `interest` can raise (via the category lookup) in this layer. -/
noncomputable def compute_features (u : User) (sp : ScorerPrefs) (ev : Event) :
    Except PyErr Features := do
  let pop := max 0 (min 100 ev.popularity) / 100
  let interest ← score_interest u sp.categories sp.attended_events ev
  pure { price := score_budget sp.budget_for_category ev
         distance := score_distance sp.max_distance ev
         popularity := pop
         interest := interest
         start_hour := score_start_hour sp.preferred_times ev
         length := score_length u ev }

/-- A Python attribute value that can be stored on the `Preferences`
object (`None`, a number, a category dict, a list of time windows, or a
list of events). -/
inductive PyVal where
  | pynone : PyVal
  | num : ℚ → PyVal
  | dict : List (String × ℚ) → PyVal
  | times : List (ℚ × ℚ) → PyVal
  | events : List Event → PyVal
deriving DecidableEq

/-- `db.Preferences.__init__`: the attribute dictionary of a freshly
constructed `Preferences` object.  The constructor sets exactly these
five attributes, in this order, whatever the argument values are. -/
def preferences_init (max_distance categories preferred_times budget attended_events : PyVal) :
    List (String × PyVal) :=
  [("max_distance", max_distance),
   ("categories", categories),
   ("preferred_times", preferred_times),
   ("budget", budget),
   ("attended_events", attended_events)]

/-- Python attribute access `obj.name`: `AttributeError` when the object
has no such attribute. -/
def py_getattr (obj : List (String × PyVal)) (attr : String) : Except PyErr PyVal :=
  match List.lookup attr obj with
  | some v => Except.ok v
  | none => Except.error PyErr.attributeError

/-- `FuzzyScorer.score_budget` run against a preferences *object*: it
reads `preferences.budget_for_category` (raising `AttributeError` when
the attribute is missing, as on any `db.Preferences` instance) and then
calls `.get` on it, which only a dict supports. -/
def score_budget_attr (prefs : List (String × PyVal)) (ev : Event) : Except PyErr ℚ := do
  let b ← py_getattr prefs "budget_for_category"
  match b with
  | PyVal.dict d => pure (score_budget d ev)
  | _ => Except.error PyErr.attributeError

/-- `FuzzyScorer.score_distance` against a preferences object
(`preferences.max_distance`; comparing a non-number with `0` raises
`TypeError`). -/
def score_distance_attr (prefs : List (String × PyVal)) (ev : Event) : Except PyErr ℚ := do
  let md ← py_getattr prefs "max_distance"
  match md with
  | PyVal.num q => pure (score_distance q ev)
  | _ => Except.error PyErr.typeError

/-- `FuzzyScorer.score_interest` against a preferences object: the
category lookup calls `.get` on `preferences.categories` (AttributeError
on `None`), and `_history_boost` iterates `preferences.attended_events`
(TypeError on `None`). -/
noncomputable def score_interest_attr (u : User) (prefs : List (String × PyVal)) (ev : Event) :
    Except PyErr ℝ := do
  let base_sim : ℝ := 1 - vector_similarity u ev
  let catsv ← py_getattr prefs "categories"
  let cat_weight ← match catsv with
    | PyVal.dict d => pure ((List.lookup ev.type d).getD 0)
    | _ => Except.error PyErr.attributeError
  let attv ← py_getattr prefs "attended_events"
  let history ← match attv with
    | PyVal.events l => pure (history_boost l ev)
    | _ => Except.error PyErr.typeError
  pure (base_sim * (6/10) + (cat_weight : ℝ) * (3/10) + (history : ℝ) * (1/10))

/-- `FuzzyScorer.score_start_hour` against a preferences object:
`if not preferences.preferred_times` treats both `None` and an empty
list as "no preference". -/
def score_start_hour_attr (prefs : List (String × PyVal)) (ev : Event) : Except PyErr ℚ := do
  let pt ← py_getattr prefs "preferred_times"
  match pt with
  | PyVal.pynone => pure (1/2)
  | PyVal.times l => pure (score_start_hour l ev)
  | _ => Except.error PyErr.typeError

/-- `FuzzyScorer.compute_features` against a preferences object.  The
dict literal evaluates its values in source order, so `score_budget`
runs first and its `AttributeError` aborts the whole call. -/
noncomputable def compute_features_attr (u : User) (prefs : List (String × PyVal)) (ev : Event) :
    Except PyErr Features := do
  let pop := max 0 (min 100 ev.popularity) / 100
  let price ← score_budget_attr prefs ev
  let dist ← score_distance_attr prefs ev
  let interest ← score_interest_attr u prefs ev
  let sh ← score_start_hour_attr prefs ev
  pure { price := price
         distance := dist
         popularity := pop
         interest := interest
         start_hour := sh
         length := score_length u ev }

end FuzzyScorer

namespace FuzzySystem

/-- skfuzzy's `trimf(x, [a, b, c])` (`a ≤ b ≤ c`), as the exact
piecewise-linear triangular membership function.  All breakpoints used by
`create_sets` are multiples of `0.01`, so sampling on the
`np.arange(0, 1.01, 0.01)` universe and linearly interpolating
(`interp_membership`) reproduces this function exactly on `[0, 1]`. -/
def trimf (a b c x : ℚ) : ℚ :=
  if x = b then 1
  else if a < x ∧ x < b then (x - a) / (b - a)
  else if b < x ∧ x < c then (c - x) / (c - b)
  else 0

/-- `low` set of each of the six input variables: `trimf [0, 0, 0.4]`. -/
def inLow (x : ℚ) : ℚ := trimf 0 0 (2/5) x

/-- `medium` set of each input variable: `trimf [0.2, 0.5, 0.8]`. -/
def inMed (x : ℚ) : ℚ := trimf (1/5) (1/2) (4/5) x

/-- `high` set of each input variable: `trimf [0.6, 1, 1]`. -/
def inHigh (x : ℚ) : ℚ := trimf (3/5) 1 1 x

/-- `recommendation_match['low']`: `trimf [0, 0.2, 0.4]`. -/
def outLow (x : ℚ) : ℚ := trimf 0 (1/5) (2/5) x

/-- `recommendation_match['medium']`: `trimf [0.3, 0.5, 0.8]`. -/
def outMed (x : ℚ) : ℚ := trimf (3/10) (1/2) (4/5) x

/-- `recommendation_match['high']`: `trimf [0.7, 1, 1]`. -/
def outHigh (x : ℚ) : ℚ := trimf (7/10) 1 1 x

/-- Clipping a crisp value into the `[0, 1]` universe
(`ControlSystemSimulation` clips out-of-range inputs to the universe
bounds, and `np.interp` clips its query point the same way). -/
def clampU (x : ℚ) : ℚ := max 0 (min 1 x)

/-- `create_rules`: the twelve rules, each as (firing strength,
consequent membership function).  `&` chains are `min`, `|` chains are
`max`, both left-associated as in the source. -/
def rules (p d pop i s l : ℚ) : List (ℚ × (ℚ → ℚ)) :=
  [ (min (min (min (min (min (inHigh p) (inHigh d)) (inHigh pop)) (inHigh i)) (inHigh s)) (inHigh l), outHigh),
    (min (min (min (min (min (inHigh p) (inHigh d)) (inMed pop)) (inHigh i)) (inHigh s)) (inHigh l), outHigh),
    (min (min (min (min (min (inHigh p) (inMed d)) (inHigh pop)) (inHigh i)) (inHigh s)) (inHigh l), outHigh),
    (min (min (min (min (min (inHigh p) (inHigh d)) (inHigh pop)) (inHigh i)) (inMed s)) (inHigh l), outHigh),
    (min (min (inMed p) (inMed d)) (inMed i), outMed),
    (min (min (inHigh s) (inMed l)) (inMed pop), outMed),
    (min (min (inHigh p) (inHigh pop)) (inMed i), outMed),
    (min (min (min (inHigh i) (inMed l)) (inLow pop)) (inMed p), outMed),
    (min (min (min (min (min (inLow p) (inLow d)) (inLow pop)) (inLow i)) (inLow s)) (inLow l), outLow),
    (min (min (min (min (min (inLow p) (inMed d)) (inLow pop)) (inLow i)) (inLow s)) (inLow l), outLow),
    (max (max (inMed p) (inMed d)) (inMed i), outMed),
    (max (max (inLow p) (inLow d)) (inLow i), outLow) ]

/-- The aggregated output membership at a point of the output universe:
each rule's consequent is clipped (`min`) at the rule's firing strength
and the clips are accumulated with `max` starting from the zero
function, as the control system does. -/
def aggAt (p d pop i s l x : ℚ) : ℚ :=
  ((rules p d pop i s l).map (fun r => min r.1 (r.2 x))).foldr max 0

/-- The `j`-th point of the output universe `np.arange(0, 1.01, 0.01)`
(101 points, `j = 0, …, 100`). -/
def grid (j : ℕ) : ℚ := (j : ℚ) / 100

/-- One integration step of skfuzzy's `centroid` defuzzifier: the pair
`(moment * area, area)` contributed by the segment from `(x1, y1)` to
`(x2, y2)`, with the source's case analysis (skipped zero segment,
rectangle, the two triangles, and the general trapezoid). -/
def segMA (x1 x2 y1 y2 : ℚ) : ℚ × ℚ :=
  if (y1 = 0 ∧ y2 = 0) ∨ x1 = x2 then (0, 0)
  else if y1 = y2 then ((x1 + x2) / 2 * ((x2 - x1) * y1), (x2 - x1) * y1)
  else if y1 = 0 then ((2/3 * (x2 - x1) + x1) * ((x2 - x1) * y2 / 2), (x2 - x1) * y2 / 2)
  else if y2 = 0 then ((1/3 * (x2 - x1) + x1) * ((x2 - x1) * y1 / 2), (x2 - x1) * y1 / 2)
  else ((2/3 * (x2 - x1) * (y2 + y1/2) / (y1 + y2) + x1) * ((x2 - x1) * (y1 + y2) / 2),
        (x2 - x1) * (y1 + y2) / 2)

/-- `sum_moment_area` of the centroid defuzzifier over the sampled
membership values `y 0, …, y 100`. -/
def momentSum (y : ℕ → ℚ) : ℚ :=
  ∑ j in Finset.range 100, (segMA (grid j) (grid (j+1)) (y j) (y (j+1))).1

/-- `sum_area` of the centroid defuzzifier. -/
def areaSum (y : ℕ → ℚ) : ℚ :=
  ∑ j in Finset.range 100, (segMA (grid j) (grid (j+1)) (y j) (y (j+1))).2

/-- `fuzz.interp_membership(universe, mf, v)`: `np.interp` clips the
query to the universe bounds and is exact on the sampled
piecewise-linear membership functions. -/
def interp_out (mf : ℚ → ℚ) (v : ℚ) : ℚ := mf (clampU v)

/-- Python's `max(memberships, key=memberships.get)` over the insertion
order `low, medium, high`: the first key whose value no later key
strictly exceeds. -/
def argmax_first (cur : String × ℚ) : List (String × ℚ) → String
  | [] => cur.1
  | kv :: rest => argmax_first (if cur.2 < kv.2 then kv else cur) rest

/-- `FuzzySystem.getRecommendationLabel`. -/
def getRecommendationLabel (output : ℚ) : String :=
  argmax_first ("low", interp_out outLow output)
    [("medium", interp_out outMed output), ("high", interp_out outHigh output)]

/-- The aggregated output membership sampled on the universe. -/
def aggGrid (p d pop i s l : ℚ) (j : ℕ) : ℚ := aggAt p d pop i s l (grid j)

/-- `FuzzySystem.makeRecommendation`.  When the aggregated output
membership is identically zero, skfuzzy's `defuzz` asserts
`Total area is zero in defuzzification!` and the control system re-raises
it as a `ValueError`; this is modelled as `none`.  Otherwise the crisp
centroid value is labelled and scaled to a percentage. -/
def makeRecommendation (price distance popularity interest start_hour length : ℚ) :
    Option (String × ℚ) :=
  let p := clampU price
  let d := clampU distance
  let pop := clampU popularity
  let i := clampU interest
  let s := clampU start_hour
  let l := clampU length
  if (∑ j in Finset.range 101, aggGrid p d pop i s l j) = 0 then none
  else
    let output := momentSum (aggGrid p d pop i s l) / areaSum (aggGrid p d pop i s l)
    some (getRecommendationLabel output, output * 100)

end FuzzySystem

/-! ### Spec-side definitions

Definitions that follow the wording of the specification's claims, to be
compared with the source-derived definitions above. -/

namespace SpecSide

open Db FuzzyScorer FuzzySystem

/-- The "applicable budget" as the spec words it: the category-specific
budget if present, else the `"global"` fallback, else unset (`0`). -/
def applicable_budget (budget_for_category : List (String × ℚ)) (t : String) : ℚ :=
  (List.lookup t budget_for_category).getD ((List.lookup "global" budget_for_category).getD 0)

/-- C4's budget score, as the claim words it: 1.0 for a free event, 0.0
when the applicable budget is unset, `1 - price/budget` up to the
budget.  Past the budget the claim's line decays linearly from the value
at `price = budget` (which is `0`) to `0` at `price = 2 * budget` and is
clamped to `[0, 1]` beyond, hence it is `0` on the whole over-budget
range. -/
def spec_budget_score (price b : ℚ) : ℚ :=
  if price ≤ 0 then 1
  else if b ≤ 0 then 0
  else if price ≤ b then 1 - price / b
  else 0

/-- C5 amended: the time score the code actually computes — proximity of
the event's start to the *first* preferred window's start with a ±3-hour
tolerance, ignoring the event's duration and any further windows. -/
def spec_time_proximity (preferred_times : List (ℚ × ℚ)) (ev : Event) : ℚ :=
  match preferred_times with
  | [] => 1/2
  | (pref_start, _) :: _ => max 0 (min 1 (1 - |ev.start_hour - pref_start| / 3600 / 3))

/-- C6 amended: the length score — with an empty history the event's own
duration is the baseline and the score is `1.0`; otherwise one minus the
absolute difference to the historical mean duration, normalised by that
mean (`1` when the mean is zero) and clamped to `[0, 1]`. -/
def spec_length_score (u : User) (ev : Event) : ℚ :=
  if u.events.isEmpty then 1
  else
    max 0 (min 1 (1 - |ev.event_length - (u.events.map Event.event_length).sum / u.events.length| /
      (if (u.events.map Event.event_length).sum / u.events.length = 0 then 1
       else (u.events.map Event.event_length).sum / u.events.length)))

/-- The per-dimension ceiling of C7: the max of the two coordinates,
with a zero max treated as `1`. -/
def dim_ceiling (a b : ℚ) : ℚ := if max a b = 0 then 1 else max a b

/-- C7: the Euclidean distance between the user's historical mean
`(price, distance, popularity)` vector and the event's vector. -/
noncomputable def spec_euclid_dist (u : User) (ev : Event) : ℝ :=
  Real.sqrt (((u.mean_price - ev.price : ℚ) : ℝ)^2 + ((u.mean_distance - ev.distance : ℚ) : ℝ)^2 +
    ((u.mean_popularity - ev.popularity : ℚ) : ℝ)^2)

/-- C7: the normalisation ceiling — the Euclidean norm of the
per-dimension ceilings. -/
noncomputable def spec_max_dist (u : User) (ev : Event) : ℝ :=
  Real.sqrt (((dim_ceiling u.mean_price ev.price : ℚ) : ℝ)^2 +
    ((dim_ceiling u.mean_distance ev.distance : ℚ) : ℝ)^2 +
    ((dim_ceiling u.mean_popularity ev.popularity : ℚ) : ℝ)^2)

/-- C7: the history boost — the count of previously attended events in
the event's category, normalised by the count of the most-attended
category; `0` with no attendance history. -/
def spec_history (attended : List Event) (ev : Event) : ℚ :=
  if attended = [] then 0
  else ((attended.map Event.type).count ev.type : ℚ) / (max_count (attended.map Event.type) : ℚ)

/-- C9: the label the spec prescribes for a crisp output value — the
label among low/medium/high with the highest output membership at that
value, ties resolved in favour of the earlier label in
low → medium → high order. -/
def spec_label (v : ℚ) : String :=
  if outMed v ≤ outLow v ∧ outHigh v ≤ outLow v then "low"
  else if outHigh v ≤ outMed v then "medium"
  else "high"

end SpecSide

/-! ### Grids and test fixtures -/

namespace FuzzySystem

/-- The `medium` output membership sampled on the universe. -/
def medGrid (j : ℕ) : ℚ := outMed (grid j)

/-- The part of the `low` output membership that exceeds the `medium`
one, sampled on the universe: the largest possible extra mass any
aggregate of these two terms can put left of their crossing point. -/
def EGrid (j : ℕ) : ℚ := max 0 (outLow (grid j) - outMed (grid j))

/-- The aggregated output membership when the five scores other than
interest sit at `0.5` and the interest input has `low`-membership `s`:
the full `medium` lobe plus the `low` lobe clipped at `s`. -/
def aggHalf (s : ℚ) (j : ℕ) : ℚ := max (medGrid j) (min s (outLow (grid j)))

end FuzzySystem

namespace Fixtures

open Db FuzzyScorer

/-- A sample event with non-negative attributes (6 PM start, 2 hours). -/
def sampleEvent : Event :=
  { name := "Jazz Night", type := "music", price := 45, distance := 3, popularity := 75,
    description := "Smooth jazz evening", event_length := 2, start_hour := 64800 }

/-- A user with no attended events. -/
def uEmpty : User := { events := [], text_profile_descriptions := [] }

/-- A user with one attended event. -/
def uOne : User := { events := [sampleEvent], text_profile_descriptions := ["Smooth jazz evening"] }

/-- A priced event used by the budget counterexamples. -/
def evPricey : Event :=
  { name := "XD event", type := "standup", price := 50, distance := 1, popularity := 85,
    description := "standup", event_length := 5, start_hour := 75600 }

/-- A zero-duration event starting exactly at a preferred window's
start. -/
def evZeroLen : Event :=
  { name := "Flash", type := "music", price := 10, distance := 1, popularity := 50,
    description := "flash event", event_length := 0, start_hour := 64800 }

/-- A scorer preference state with every attribute present. -/
def samplePrefs : ScorerPrefs :=
  { max_distance := 10, categories := some [("music", 9/10), ("tech", 3/5)],
    preferred_times := [(64800, 2)], budget_for_category := [("music", 100)],
    attended_events := [sampleEvent] }

end Fixtures

/-! ### Basic lemmas -/

theorem clamp01_nonneg (x : ℚ) : 0 ≤ clamp01 x := le_max_left 0 _

theorem clamp01_le_one (x : ℚ) : clamp01 x ≤ 1 := max_le (by norm_num) (min_le_left 1 x)

theorem clamp01_of_mem {x : ℚ} (h0 : 0 ≤ x) (h1 : x ≤ 1) : clamp01 x = x := by
  unfold clamp01
  rw [min_eq_right h1, max_eq_right h0]

theorem clamp01_of_nonpos {x : ℚ} (h : x ≤ 0) : clamp01 x = 0 := by
  unfold clamp01
  rw [min_eq_right (le_trans h (by norm_num)), max_eq_left h]

theorem clamp01_one_sub (x : ℚ) : clamp01 (1 - x) = 1 - clamp01 x := by
  simp only [clamp01, max_def, min_def]
  split_ifs <;> linarith

theorem clamp01_idem (x : ℚ) : clamp01 (clamp01 x) = clamp01 x :=
  clamp01_of_mem (clamp01_nonneg x) (clamp01_le_one x)

namespace FuzzyScorer

theorem normalize_nonneg (v a b : ℚ) : 0 ≤ normalize v a b := by
  unfold normalize
  split_ifs
  · norm_num
  · exact le_max_left 0 _

theorem normalize_le_one (v a b : ℚ) : normalize v a b ≤ 1 := by
  unfold normalize
  split_ifs
  · norm_num
  · exact max_le (by norm_num) (min_le_left 1 _)

theorem normalizeR_nonneg (v a b : ℝ) : 0 ≤ normalizeR v a b := by
  unfold normalizeR
  split_ifs
  · norm_num
  · exact le_max_left 0 _

theorem normalizeR_le_one (v a b : ℝ) : normalizeR v a b ≤ 1 := by
  unfold normalizeR
  split_ifs
  · norm_num
  · exact max_le (by norm_num) (min_le_left 1 _)

end FuzzyScorer

namespace FuzzySystem

theorem trimf_nonneg (a b c x : ℚ) : 0 ≤ trimf a b c x := by
  unfold trimf
  split_ifs with h1 h2 h3
  · norm_num
  · exact div_nonneg (by linarith [h2.1]) (by linarith [h2.1, h2.2])
  · exact div_nonneg (by linarith [h3.2]) (by linarith [h3.1, h3.2])
  · exact le_refl 0

theorem trimf_le_one (a b c x : ℚ) : trimf a b c x ≤ 1 := by
  unfold trimf
  split_ifs with h1 h2 h3
  · exact le_refl 1
  · rw [div_le_one (by linarith [h2.1, h2.2])]
    linarith [h2.2]
  · rw [div_le_one (by linarith [h3.1, h3.2])]
    linarith [h3.1]
  · norm_num

theorem inLow_nonneg (x : ℚ) : 0 ≤ inLow x := trimf_nonneg 0 0 (2/5) x

theorem inMed_nonneg (x : ℚ) : 0 ≤ inMed x := trimf_nonneg (1/5) (1/2) (4/5) x

theorem inHigh_nonneg (x : ℚ) : 0 ≤ inHigh x := trimf_nonneg (3/5) 1 1 x

theorem outLow_nonneg (x : ℚ) : 0 ≤ outLow x := trimf_nonneg 0 (1/5) (2/5) x

theorem outMed_nonneg (x : ℚ) : 0 ≤ outMed x := trimf_nonneg (3/10) (1/2) (4/5) x

theorem outHigh_nonneg (x : ℚ) : 0 ≤ outHigh x := trimf_nonneg (7/10) 1 1 x

theorem inLow_le_one (x : ℚ) : inLow x ≤ 1 := trimf_le_one 0 0 (2/5) x

theorem inMed_le_one (x : ℚ) : inMed x ≤ 1 := trimf_le_one (1/5) (1/2) (4/5) x

theorem outMed_le_one (x : ℚ) : outMed x ≤ 1 := trimf_le_one (3/10) (1/2) (4/5) x

end FuzzySystem

/-! ### Claim C2: `score_budget` reads a missing attribute -/

/-- C2: every `Preferences` object built by `db.Preferences.__init__`
carries exactly the attributes `max_distance`, `categories`,
`preferred_times`, `budget`, `attended_events`; `score_budget` reads the
absent `budget_for_category` attribute, so both it and (through its
first dict entry) `compute_features` raise `AttributeError` for every
event. -/
theorem c2_db_preferences_attribute_error
    (v1 v2 v3 v4 v5 : FuzzyScorer.PyVal) (u : Db.User) (ev : Db.Event) :
    FuzzyScorer.score_budget_attr (FuzzyScorer.preferences_init v1 v2 v3 v4 v5) ev =
      Except.error PyErr.attributeError ∧
    FuzzyScorer.compute_features_attr u (FuzzyScorer.preferences_init v1 v2 v3 v4 v5) ev =
      Except.error PyErr.attributeError :=
  ⟨rfl, rfl⟩

/-! ### Claim C4: the budget score formula -/

/-- C4: for every event with non-negative price, `score_budget` computes
exactly the spec's formula over the applicable budget (category-specific
entry, else the `"global"` fallback): `1` for a free event, `0` for an
unset budget, `1 - price/budget` up to the budget and `0` from the
budget on (the clamped linear decay that reaches `0` at twice the
budget) — in particular `price = budget` and `price = 2 * budget` both
score `0`. -/
theorem c4_score_budget_formula (d : List (String × ℚ)) (ev : Db.Event)
    (hp : 0 ≤ ev.price) :
    FuzzyScorer.score_budget d ev =
      SpecSide.spec_budget_score ev.price (SpecSide.applicable_budget d ev.type) ∧
    (0 < SpecSide.applicable_budget d ev.type →
      ev.price = SpecSide.applicable_budget d ev.type → FuzzyScorer.score_budget d ev = 0) ∧
    (0 < SpecSide.applicable_budget d ev.type →
      ev.price = 2 * SpecSide.applicable_budget d ev.type → FuzzyScorer.score_budget d ev = 0) := by
  have hmain : FuzzyScorer.score_budget d ev =
      SpecSide.spec_budget_score ev.price (SpecSide.applicable_budget d ev.type) := by
    simp only [FuzzyScorer.score_budget, SpecSide.spec_budget_score, SpecSide.applicable_budget]
    set b := (List.lookup ev.type d).getD ((List.lookup "global" d).getD 0) with hb
    split_ifs with h1 h2 h3
    · rfl
    · rfl
    · have hbpos : 0 < b := lt_of_not_le h2
      have hppos : 0 < ev.price := lt_of_not_le h1
      refine clamp01_of_mem ?_ ?_
      · have : ev.price / b ≤ 1 := (div_le_one hbpos).2 h3
        linarith
      · have : 0 ≤ ev.price / b := div_nonneg hp (le_of_lt hbpos)
        linarith
    · have hbpos : 0 < b := lt_of_not_le h2
      have : 1 < ev.price / b := (one_lt_div hbpos).2 (lt_of_not_le h3)
      exact clamp01_of_nonpos (by linarith)
  refine ⟨hmain, ?_, ?_⟩
  · intro hbpos hpe
    rw [hmain, SpecSide.spec_budget_score]
    rw [if_neg (by linarith), if_neg (by linarith), if_pos (le_of_eq hpe), hpe,
      div_self (ne_of_gt hbpos)]
    ring
  · intro hbpos hpe
    rw [hmain, SpecSide.spec_budget_score]
    rw [if_neg (by linarith), if_neg (by linarith), if_neg (by push_neg; linarith)]

/-- Witness for C4 at a concrete input: an event of price 45 against a
category budget of 90 (the formula gives `1/2`). -/
theorem c4_witness :
    0 ≤ (Fixtures.sampleEvent.price) ∧
    FuzzyScorer.score_budget [("music", 90)] Fixtures.sampleEvent =
      SpecSide.spec_budget_score Fixtures.sampleEvent.price
        (SpecSide.applicable_budget [("music", 90)] Fixtures.sampleEvent.type) :=
  ⟨by decide, (c4_score_budget_formula [("music", 90)] Fixtures.sampleEvent (by decide)).1⟩

/-! ### Claim C3: configuration-absent behaviour -/

/-- C3 counterexample: with no budget configured (empty budget dict, so
the applicable budget is the unset `0`) an event priced `50` scores `0`,
not the claimed neutral `0.5`; and with the categories mapping absent
(`None`, the `db.Preferences` default) `score_interest` raises
`AttributeError` instead of returning with category weight `0`. -/
theorem c3_counterexample :
    FuzzyScorer.score_budget [] Fixtures.evPricey = 0 ∧ ((0 : ℚ) ≠ 1/2) ∧
    FuzzyScorer.score_interest Fixtures.uOne none [] Fixtures.evPricey =
      Except.error PyErr.attributeError :=
  ⟨by decide, of_decide_eq_true (by with_unfolding_all rfl), rfl⟩

/-- C3 (amended): the configuration-absent cases behave as follows —
`score_budget` returns `1` for a free event and `0` (not `0.5`) when the
applicable budget is unset and the price is positive; `score_distance`
returns `0.5` when `max_distance ≤ 0`; `score_start_hour` returns `0.5`
with no preferred times; `score_interest` raises `AttributeError` (does
not return a neutral value) when the categories mapping is absent
(`None`); and `score_description` returns `0.5` whenever the text
vectorizer or the user text profile is absent. -/
theorem c3_amended_neutral_defaults :
    (∀ (d : List (String × ℚ)) (ev : Db.Event), 0 < ev.price →
      SpecSide.applicable_budget d ev.type ≤ 0 → FuzzyScorer.score_budget d ev = 0) ∧
    (∀ (d : List (String × ℚ)) (ev : Db.Event), ev.price ≤ 0 →
      FuzzyScorer.score_budget d ev = 1) ∧
    (∀ (md : ℚ) (ev : Db.Event), md ≤ 0 → FuzzyScorer.score_distance md ev = 1/2) ∧
    (∀ ev : Db.Event, FuzzyScorer.score_start_hour [] ev = 1/2) ∧
    (∀ (u : Db.User) (att : List Db.Event) (ev : Db.Event),
      FuzzyScorer.score_interest u none att ev = Except.error PyErr.attributeError) ∧
    (∀ (tp : Option (List ℝ)) (ev : Db.Event),
      FuzzyScorer.score_description none tp ev = 1/2) ∧
    (∀ (tv : Option (String → List ℝ)) (ev : Db.Event),
      FuzzyScorer.score_description tv none ev = 1/2) := by
  refine ⟨?_, ?_, ?_, ?_, ?_, ?_, ?_⟩
  · intro d ev hp hb
    simp only [FuzzyScorer.score_budget, SpecSide.applicable_budget] at hb ⊢
    rw [if_neg (not_le.2 hp), if_pos hb]
  · intro d ev hp
    simp only [FuzzyScorer.score_budget]
    rw [if_pos hp]
  · intro md ev hmd
    simp only [FuzzyScorer.score_distance]
    rw [if_pos hmd]
  · intro ev
    rfl
  · intro u att ev
    rfl
  · intro tp ev
    rfl
  · intro tv ev
    cases tv <;> rfl

/-- Witness for C3 (amended), discharging the hypotheses at concrete
inputs: the empty budget dict with a priced event, a free event, a
non-positive `max_distance`, and the absent categories mapping. -/
theorem c3_witness :
    FuzzyScorer.score_budget [] Fixtures.evPricey = 0 ∧
    FuzzyScorer.score_distance 0 Fixtures.evPricey = 1/2 ∧
    FuzzyScorer.score_start_hour [] Fixtures.evPricey = 1/2 ∧
    FuzzyScorer.score_interest Fixtures.uOne none [] Fixtures.evPricey =
      Except.error PyErr.attributeError :=
  ⟨c3_amended_neutral_defaults.1 [] Fixtures.evPricey (by decide) (by decide),
   c3_amended_neutral_defaults.2.2.1 0 Fixtures.evPricey (le_refl 0),
   c3_amended_neutral_defaults.2.2.2.1 Fixtures.evPricey,
   c3_amended_neutral_defaults.2.2.2.2.1 Fixtures.uOne [] Fixtures.evPricey⟩

/-! ### Claim C5: the time score -/

/-- C5 counterexample: a zero-duration event (non-positive duration, for
which the claim prescribes a score of `0`) starting exactly at the first
preferred window's start scores `1`, because the code scores proximity
to the window start and never reads the event's duration. -/
theorem c5_counterexample :
    Fixtures.evZeroLen.event_length ≤ 0 ∧
    FuzzyScorer.score_start_hour [(64800, 2)] Fixtures.evZeroLen = 1 ∧ ((1 : ℚ) ≠ 0) :=
  ⟨by decide, of_decide_eq_true (by with_unfolding_all rfl),
   of_decide_eq_true (by with_unfolding_all rfl)⟩

/-- C5 (amended): the time score is not an interval-overlap ratio — it
is `0.5` when no preferred windows are configured, and otherwise
`clamp(1 - |event start - first window start| / 3h)`, the proximity of
the event's start to the *first* preferred window's start, ignoring the
event's duration and all further windows. -/
theorem c5_amended_start_hour_proximity (pt : List (ℚ × ℚ)) (ev : Db.Event) :
    FuzzyScorer.score_start_hour pt ev = SpecSide.spec_time_proximity pt ev := by
  cases pt with
  | nil => rfl
  | cons hd tl =>
    obtain ⟨ps, len⟩ := hd
    show clamp01 (1 - FuzzyScorer.normalize (|ev.start_hour - ps| / 3600) 0 3) =
      max 0 (min 1 (1 - |ev.start_hour - ps| / 3600 / 3))
    rw [FuzzyScorer.normalize, if_neg (by norm_num)]
    have h30 : (|ev.start_hour - ps| / 3600 - 0) / ((3 : ℚ) - 0) =
        |ev.start_hour - ps| / 3600 / 3 := by ring
    rw [h30]
    show clamp01 (1 - clamp01 (|ev.start_hour - ps| / 3600 / 3)) =
      clamp01 (1 - |ev.start_hour - ps| / 3600 / 3)
    rw [clamp01_one_sub, clamp01_idem, clamp01_one_sub]

/-! ### Claim C6: the length score -/

/-- C6 counterexample: with an empty attendance history `score_length`
returns `1` (the event's own duration is the baseline, so the difference
is zero), not the claimed neutral `0.5`. -/
theorem c6_counterexample :
    FuzzyScorer.score_length Fixtures.uEmpty Fixtures.sampleEvent = 1 ∧ ((1 : ℚ) ≠ 1/2) :=
  ⟨of_decide_eq_true (by with_unfolding_all rfl), of_decide_eq_true (by with_unfolding_all rfl)⟩

/-- C6 (amended): with an empty history `score_length` returns `1.0`
(not `0.5`); with a non-empty history it returns one minus the absolute
difference between the event's duration and the mean duration of past
attended events, normalised by that mean (by `1` when the mean is zero)
and clamped to `[0, 1]`. -/
theorem c6_amended_length_score (u : Db.User) (ev : Db.Event) :
    FuzzyScorer.score_length u ev = SpecSide.spec_length_score u ev := by
  by_cases h : u.events.isEmpty
  · simp only [FuzzyScorer.score_length, SpecSide.spec_length_score, if_pos h]
    rw [sub_self, abs_zero, FuzzyScorer.normalize]
    have hm : ¬((if ev.event_length = 0 then (1 : ℚ) else ev.event_length) = 0) := by
      by_cases hz : ev.event_length = 0
      · rw [if_pos hz]; norm_num
      · rw [if_neg hz]; exact hz
    rw [if_neg hm]
    norm_num [clamp01]
  · simp only [FuzzyScorer.score_length, SpecSide.spec_length_score, if_neg h]
    set avg := (u.events.map Db.Event.event_length).sum / u.events.length with havg
    set m := if avg = 0 then (1 : ℚ) else avg with hmdef
    have hm : m ≠ 0 := by
      rw [hmdef]
      by_cases hz : avg = 0
      · rw [if_pos hz]; norm_num
      · rw [if_neg hz]; exact hz
    rw [FuzzyScorer.normalize, if_neg hm]
    have hdiv : (|ev.event_length - avg| - 0) / (m - 0) = |ev.event_length - avg| / m := by ring
    rw [hdiv]
    show clamp01 (1 - clamp01 (|ev.event_length - avg| / m)) =
      clamp01 (1 - |ev.event_length - avg| / m)
    rw [clamp01_one_sub, clamp01_idem, clamp01_one_sub]

/-! ### Claim C7: the interest blend -/

theorem mem_of_lookup_eq_some {α β : Type} [BEq α] [LawfulBEq α] {l : List (α × β)} {k : α}
    {b : β} (h : List.lookup k l = some b) : (k, b) ∈ l := by
  obtain ⟨l₁, l₂, rfl, -⟩ := List.lookup_eq_some_iff.1 h
  simp

theorem le_foldr_max {x : ℕ} {l : List ℕ} (h : x ∈ l) : x ≤ l.foldr max 0 := by
  induction l with
  | nil => cases h
  | cons a t ih =>
    rcases List.mem_cons.1 h with rfl | h
    · exact le_max_left _ _
    · exact le_trans (ih h) (le_max_right _ _)

theorem count_le_max_count (types : List String) (t : String) :
    types.count t ≤ FuzzyScorer.max_count types := by
  by_cases h : t ∈ types
  · exact le_foldr_max (List.mem_map_of_mem (fun s => types.count s) h)
  · rw [List.count_eq_zero_of_not_mem h]
    exact Nat.zero_le _

theorem max_count_pos {types : List String} (h : types ≠ []) :
    0 < FuzzyScorer.max_count types := by
  obtain ⟨a, t, rfl⟩ := List.exists_cons_of_ne_nil h
  calc 0 < (a :: t).count a := List.count_pos_iff.2 (List.mem_cons_self a t)
    _ ≤ FuzzyScorer.max_count (a :: t) := count_le_max_count _ a

/-- `_history_boost` computes exactly the spec's normalised category
count: the clamps of `normalize` never bind because the count is between
`0` and the maximal count. -/
theorem history_boost_eq_spec (att : List Db.Event) (ev : Db.Event) :
    FuzzyScorer.history_boost att ev = SpecSide.spec_history att ev := by
  by_cases h : att = []
  · subst h
    rfl
  · have htypes : att.map Db.Event.type ≠ [] := by
      simpa using h
    rw [FuzzyScorer.history_boost, SpecSide.spec_history, if_neg h]
    rw [if_neg (by simpa [List.isEmpty_iff] using htypes)]
    set c : ℚ := ((att.map Db.Event.type).count ev.type : ℚ) with hc
    set mc : ℚ := (FuzzyScorer.max_count (att.map Db.Event.type) : ℚ) with hmc
    have hmcpos : 0 < mc := by
      rw [hmc]
      exact_mod_cast max_count_pos htypes
    rw [FuzzyScorer.normalize, if_neg (by exact ne_of_gt hmcpos)]
    have hsub : (c - 0) / (mc - 0) = c / mc := by ring
    rw [hsub]
    have hcnonneg : 0 ≤ c := by
      rw [hc]; exact_mod_cast Nat.zero_le _
    have hcle : c ≤ mc := by
      rw [hc, hmc]
      exact_mod_cast count_le_max_count (att.map Db.Event.type) ev.type
    rw [min_eq_right ((div_le_one hmcpos).2 hcle), max_eq_right (div_nonneg hcnonneg hmcpos.le)]

theorem dim_ceiling_pos {a b : ℚ} (ha : 0 ≤ a) : 0 < SpecSide.dim_ceiling a b := by
  unfold SpecSide.dim_ceiling
  split_ifs with h
  · norm_num
  · exact lt_of_le_of_ne (le_trans ha (le_max_left a b)) (Ne.symm h)

theorem sub_sq_le_dim_ceiling_sq {a b : ℚ} (ha : 0 ≤ a) (hb : 0 ≤ b) :
    (a - b)^2 ≤ (SpecSide.dim_ceiling a b)^2 := by
  unfold SpecSide.dim_ceiling
  split_ifs with h
  · have ha0 : a = 0 := le_antisymm (h ▸ le_max_left a b) ha
    have hb0 : b = 0 := le_antisymm (h ▸ le_max_right a b) hb
    subst ha0; subst hb0
    norm_num
  · have habs : |a - b| ≤ max a b := by
      rw [abs_sub_le_iff]
      constructor
      · linarith [le_max_left a b]
      · linarith [le_max_right a b]
    calc (a - b)^2 = |a - b|^2 := (sq_abs _).symm
      _ ≤ (max a b)^2 := pow_le_pow_left₀ (abs_nonneg _) habs 2

/-- `_vector_similarity` computes the spec's normalised Euclidean
distance: the ceiling is positive, the distance never exceeds the
ceiling, so neither the degenerate-range branch nor the clamps of
`normalize` fire. -/
theorem vector_similarity_eq_spec (u : Db.User) (ev : Db.Event)
    (hp : 0 ≤ ev.price) (hd : 0 ≤ ev.distance) (hpop : 0 ≤ ev.popularity)
    (hup : 0 ≤ u.mean_price) (hud : 0 ≤ u.mean_distance) (hupop : 0 ≤ u.mean_popularity) :
    FuzzyScorer.vector_similarity u ev =
      SpecSide.spec_euclid_dist u ev / SpecSide.spec_max_dist u ev := by
  have castsq : ∀ q : ℚ, ((q : ℝ))^2 = ((q^2 : ℚ) : ℝ) := by
    intro q; push_cast; ring
  have hM : 0 < SpecSide.spec_max_dist u ev := by
    apply Real.sqrt_pos.2
    have h1 : (0:ℝ) < ((SpecSide.dim_ceiling u.mean_price ev.price : ℚ) : ℝ)^2 := by
      have := dim_ceiling_pos (b := ev.price) hup
      have hcast : (0:ℝ) < ((SpecSide.dim_ceiling u.mean_price ev.price : ℚ) : ℝ) := by
        exact_mod_cast this
      positivity
    have h2 := sq_nonneg ((SpecSide.dim_ceiling u.mean_distance ev.distance : ℚ) : ℝ)
    have h3 := sq_nonneg ((SpecSide.dim_ceiling u.mean_popularity ev.popularity : ℚ) : ℝ)
    linarith
  have hD0 : 0 ≤ SpecSide.spec_euclid_dist u ev := Real.sqrt_nonneg _
  have hDM : SpecSide.spec_euclid_dist u ev ≤ SpecSide.spec_max_dist u ev := by
    apply Real.sqrt_le_sqrt
    have t1 : ((u.mean_price - ev.price : ℚ) : ℝ)^2 ≤
        ((SpecSide.dim_ceiling u.mean_price ev.price : ℚ) : ℝ)^2 := by
      rw [castsq, castsq]
      exact_mod_cast sub_sq_le_dim_ceiling_sq hup hp
    have t2 : ((u.mean_distance - ev.distance : ℚ) : ℝ)^2 ≤
        ((SpecSide.dim_ceiling u.mean_distance ev.distance : ℚ) : ℝ)^2 := by
      rw [castsq, castsq]
      exact_mod_cast sub_sq_le_dim_ceiling_sq hud hd
    have t3 : ((u.mean_popularity - ev.popularity : ℚ) : ℝ)^2 ≤
        ((SpecSide.dim_ceiling u.mean_popularity ev.popularity : ℚ) : ℝ)^2 := by
      rw [castsq, castsq]
      exact_mod_cast sub_sq_le_dim_ceiling_sq hupop hpop
    linarith
  show FuzzyScorer.normalizeR (SpecSide.spec_euclid_dist u ev) 0 (SpecSide.spec_max_dist u ev) = _
  rw [FuzzyScorer.normalizeR, if_neg (ne_of_gt hM), sub_zero, sub_zero]
  rw [min_eq_right ((div_le_one hM).2 hDM), max_eq_right (div_nonneg hD0 hM.le)]

/-- C7: for every event and user state with non-negative price, distance
and popularity, `score_interest` returns exactly
`0.6 * similarity + 0.3 * category-weight + 0.1 * history-boost`, where
the similarity is one minus the Euclidean distance between the user's
mean vector and the event's vector divided by the max-per-dimension
ceiling (a zero max treated as `1`), the category weight is the stated
interest weight (`0` for an unseen category), and the history boost is
the attended-count of the event's category normalised by the
most-attended category's count (`0` with no history). -/
theorem c7_score_interest_blend (u : Db.User) (m : List (String × ℚ))
    (att : List Db.Event) (ev : Db.Event)
    (hp : 0 ≤ ev.price) (hd : 0 ≤ ev.distance) (hpop : 0 ≤ ev.popularity)
    (hu : ∀ e ∈ u.events, 0 ≤ e.price ∧ 0 ≤ e.distance ∧ 0 ≤ e.popularity) :
    FuzzyScorer.score_interest u (some m) att ev = Except.ok
      ((1 - SpecSide.spec_euclid_dist u ev / SpecSide.spec_max_dist u ev) * (6/10)
       + (((List.lookup ev.type m).getD 0 : ℚ) : ℝ) * (3/10)
       + ((SpecSide.spec_history att ev : ℚ) : ℝ) * (1/10)) := by
  have hup : 0 ≤ u.mean_price := by
    apply div_nonneg _ (Nat.cast_nonneg _)
    apply List.sum_nonneg
    intro x hx
    obtain ⟨e, he, rfl⟩ := List.mem_map.1 hx
    exact (hu e he).1
  have hud : 0 ≤ u.mean_distance := by
    apply div_nonneg _ (Nat.cast_nonneg _)
    apply List.sum_nonneg
    intro x hx
    obtain ⟨e, he, rfl⟩ := List.mem_map.1 hx
    exact (hu e he).2.1
  have hupop : 0 ≤ u.mean_popularity := by
    apply div_nonneg _ (Nat.cast_nonneg _)
    apply List.sum_nonneg
    intro x hx
    obtain ⟨e, he, rfl⟩ := List.mem_map.1 hx
    exact (hu e he).2.2
  have hvs := vector_similarity_eq_spec u ev hp hd hpop hup hud hupop
  have hhb := history_boost_eq_spec att ev
  calc FuzzyScorer.score_interest u (some m) att ev
      = Except.ok ((1 - FuzzyScorer.vector_similarity u ev) * (6/10)
          + (((List.lookup ev.type m).getD 0 : ℚ) : ℝ) * (3/10)
          + ((FuzzyScorer.history_boost att ev : ℚ) : ℝ) * (1/10)) := rfl
    _ = _ := by rw [hvs, hhb]

/-- Witness for C7 at a concrete user, category mapping, empty history
and event, with the non-negativity hypotheses discharged. -/
theorem c7_witness :
    FuzzyScorer.score_interest Fixtures.uOne (some [("music", 9/10)]) [] Fixtures.sampleEvent =
      Except.ok
        ((1 - SpecSide.spec_euclid_dist Fixtures.uOne Fixtures.sampleEvent /
            SpecSide.spec_max_dist Fixtures.uOne Fixtures.sampleEvent) * (6/10)
         + (((List.lookup Fixtures.sampleEvent.type [("music", 9/10)]).getD 0 : ℚ) : ℝ) * (3/10)
         + ((SpecSide.spec_history [] Fixtures.sampleEvent : ℚ) : ℝ) * (1/10)) :=
  c7_score_interest_blend Fixtures.uOne [("music", 9/10)] [] Fixtures.sampleEvent
    (by decide) (by decide) (by decide)
    (by
      intro e he
      simp only [Fixtures.uOne, List.mem_singleton] at he
      subst he
      exact ⟨by decide, by decide, by decide⟩)

/-! ### Claim C8: all feature scores lie in [0, 1] -/

theorem score_budget_mem (d : List (String × ℚ)) (ev : Db.Event) :
    0 ≤ FuzzyScorer.score_budget d ev ∧ FuzzyScorer.score_budget d ev ≤ 1 := by
  simp only [FuzzyScorer.score_budget]
  split_ifs
  · exact ⟨zero_le_one, le_refl 1⟩
  · exact ⟨le_refl 0, zero_le_one⟩
  · exact ⟨clamp01_nonneg _, clamp01_le_one _⟩

theorem score_distance_mem (md : ℚ) (ev : Db.Event) :
    0 ≤ FuzzyScorer.score_distance md ev ∧ FuzzyScorer.score_distance md ev ≤ 1 := by
  simp only [FuzzyScorer.score_distance]
  split_ifs
  · norm_num
  · exact ⟨clamp01_nonneg _, clamp01_le_one _⟩

theorem score_start_hour_mem (pt : List (ℚ × ℚ)) (ev : Db.Event) :
    0 ≤ FuzzyScorer.score_start_hour pt ev ∧ FuzzyScorer.score_start_hour pt ev ≤ 1 := by
  cases pt with
  | nil =>
    show (0:ℚ) ≤ 1/2 ∧ (1/2:ℚ) ≤ 1
    norm_num
  | cons hd tl =>
    obtain ⟨ps, len⟩ := hd
    exact ⟨clamp01_nonneg _, clamp01_le_one _⟩

theorem score_length_mem (u : Db.User) (ev : Db.Event) :
    0 ≤ FuzzyScorer.score_length u ev ∧ FuzzyScorer.score_length u ev ≤ 1 :=
  ⟨clamp01_nonneg _, clamp01_le_one _⟩

theorem vector_similarity_mem (u : Db.User) (ev : Db.Event) :
    0 ≤ FuzzyScorer.vector_similarity u ev ∧ FuzzyScorer.vector_similarity u ev ≤ 1 :=
  ⟨FuzzyScorer.normalizeR_nonneg _ _ _, FuzzyScorer.normalizeR_le_one _ _ _⟩

theorem history_boost_mem (att : List Db.Event) (ev : Db.Event) :
    0 ≤ FuzzyScorer.history_boost att ev ∧ FuzzyScorer.history_boost att ev ≤ 1 := by
  simp only [FuzzyScorer.history_boost]
  split_ifs
  · norm_num
  · exact ⟨FuzzyScorer.normalize_nonneg _ _ _, FuzzyScorer.normalize_le_one _ _ _⟩

theorem score_interest_mem (u : Db.User) (m : List (String × ℚ)) (att : List Db.Event)
    (ev : Db.Event) (hm : ∀ kv ∈ m, 0 ≤ kv.2 ∧ kv.2 ≤ 1) :
    ∃ r : ℝ, FuzzyScorer.score_interest u (some m) att ev = Except.ok r ∧ 0 ≤ r ∧ r ≤ 1 := by
  refine ⟨(1 - FuzzyScorer.vector_similarity u ev) * (6/10)
      + (((List.lookup ev.type m).getD 0 : ℚ) : ℝ) * (3/10)
      + ((FuzzyScorer.history_boost att ev : ℚ) : ℝ) * (1/10), rfl, ?_, ?_⟩
  all_goals
    obtain ⟨hv0, hv1⟩ := vector_similarity_mem u ev
    obtain ⟨hh0, hh1⟩ := history_boost_mem att ev
    have hw : 0 ≤ (List.lookup ev.type m).getD 0 ∧ (List.lookup ev.type m).getD 0 ≤ 1 := by
      cases hl : List.lookup ev.type m with
      | none => simp
      | some b =>
        have := hm _ (mem_of_lookup_eq_some hl)
        simpa using this
    have hw0 : (0:ℝ) ≤ (((List.lookup ev.type m).getD 0 : ℚ) : ℝ) := by exact_mod_cast hw.1
    have hw1 : (((List.lookup ev.type m).getD 0 : ℚ) : ℝ) ≤ 1 := by exact_mod_cast hw.2
    have hhr0 : (0:ℝ) ≤ ((FuzzyScorer.history_boost att ev : ℚ) : ℝ) := by exact_mod_cast hh0
    have hhr1 : ((FuzzyScorer.history_boost att ev : ℚ) : ℝ) ≤ 1 := by exact_mod_cast hh1
  · nlinarith
  · nlinarith

/-- C8: for every event with non-negative attributes and a present
category mapping whose interest weights lie in `[0, 1]`,
`compute_features` succeeds and every one of the six returned scores
(price, distance, popularity, interest, start_hour, length) lies in the
closed interval `[0, 1]`. -/
theorem c8_feature_bounds (u : Db.User) (sp : FuzzyScorer.ScorerPrefs) (ev : Db.Event)
    (m : List (String × ℚ)) (hcats : sp.categories = some m)
    (hm : ∀ kv ∈ m, 0 ≤ kv.2 ∧ kv.2 ≤ 1)
    (hp : 0 ≤ ev.price) (hd : 0 ≤ ev.distance) (hpop : 0 ≤ ev.popularity)
    (hlen : 0 ≤ ev.event_length) :
    ∃ f : FuzzyScorer.Features, FuzzyScorer.compute_features u sp ev = Except.ok f ∧
      0 ≤ f.price ∧ f.price ≤ 1 ∧ 0 ≤ f.distance ∧ f.distance ≤ 1 ∧
      0 ≤ f.popularity ∧ f.popularity ≤ 1 ∧ 0 ≤ f.interest ∧ f.interest ≤ 1 ∧
      0 ≤ f.start_hour ∧ f.start_hour ≤ 1 ∧ 0 ≤ f.length ∧ f.length ≤ 1 := by
  obtain ⟨r, hr, hr0, hr1⟩ := score_interest_mem u m sp.attended_events ev hm
  refine ⟨{ price := FuzzyScorer.score_budget sp.budget_for_category ev
            distance := FuzzyScorer.score_distance sp.max_distance ev
            popularity := max 0 (min 100 ev.popularity) / 100
            interest := r
            start_hour := FuzzyScorer.score_start_hour sp.preferred_times ev
            length := FuzzyScorer.score_length u ev }, ?_, ?_⟩
  · simp only [FuzzyScorer.compute_features, hcats, hr]
    rfl
  · obtain ⟨hb0, hb1⟩ := score_budget_mem sp.budget_for_category ev
    obtain ⟨hdi0, hdi1⟩ := score_distance_mem sp.max_distance ev
    obtain ⟨hs0, hs1⟩ := score_start_hour_mem sp.preferred_times ev
    obtain ⟨hl0, hl1⟩ := score_length_mem u ev
    have hpop0 : (0:ℚ) ≤ max 0 (min 100 ev.popularity) / 100 :=
      div_nonneg (le_max_left 0 _) (by norm_num)
    have hpop1 : max 0 (min 100 ev.popularity) / 100 ≤ 1 := by
      rw [div_le_one (by norm_num : (0:ℚ) < 100)]
      exact max_le (by norm_num) (min_le_left _ _)
    exact ⟨hb0, hb1, hdi0, hdi1, hpop0, hpop1, hr0, hr1, hs0, hs1, hl0, hl1⟩

/-- Witness for C8 at a concrete user, preference state and event. -/
theorem c8_witness :
    ∃ f : FuzzyScorer.Features,
      FuzzyScorer.compute_features Fixtures.uOne Fixtures.samplePrefs Fixtures.sampleEvent =
        Except.ok f ∧
      0 ≤ f.price ∧ f.price ≤ 1 ∧ 0 ≤ f.distance ∧ f.distance ≤ 1 ∧
      0 ≤ f.popularity ∧ f.popularity ≤ 1 ∧ 0 ≤ f.interest ∧ f.interest ≤ 1 ∧
      0 ≤ f.start_hour ∧ f.start_hour ≤ 1 ∧ 0 ≤ f.length ∧ f.length ≤ 1 :=
  c8_feature_bounds Fixtures.uOne Fixtures.samplePrefs Fixtures.sampleEvent
    [("music", 9/10), ("tech", 3/5)] rfl
    (by
      intro kv hkv
      simp only [List.mem_cons, List.not_mem_nil, or_false] at hkv
      rcases hkv with rfl | rfl <;> constructor <;> norm_num)
    (by decide) (by decide) (by decide) (by decide)

/-! ### Fuzzy engine: centroid segment and sum lemmas -/

namespace FuzzySystem

theorem grid_lt (j : ℕ) : grid j < grid (j+1) := by
  unfold grid
  push_cast
  linarith

theorem grid_ne (j : ℕ) : grid j ≠ grid (j+1) := ne_of_lt (grid_lt j)

theorem grid_nonneg (j : ℕ) : 0 ≤ grid j := by
  unfold grid
  positivity

theorem grid_delta (j : ℕ) : grid (j+1) - grid j = 1/100 := by
  unfold grid
  push_cast
  ring

/-- Every branch of the centroid's case analysis yields the trapezoid
area. -/
theorem segMA_snd_eq {x1 x2 : ℚ} (h : x1 ≠ x2) (y1 y2 : ℚ) :
    (segMA x1 x2 y1 y2).2 = (x2 - x1) * (y1 + y2) / 2 := by
  unfold segMA
  split_ifs with h1 h2 h3 h4
  · rcases h1 with ⟨hy1, hy2⟩ | hx
    · rw [hy1, hy2]
      ring
    · exact absurd hx h
  · rw [← h2]
    ring
  · rw [h3]
    ring
  · rw [h4]
    ring
  · rfl

/-- Every branch of the centroid's case analysis yields the same
moment-times-area polynomial (for non-negative heights, which make the
general branch's denominator non-zero). -/
theorem segMA_fst_eq {x1 x2 : ℚ} (h : x1 ≠ x2) {y1 y2 : ℚ} (hy1 : 0 ≤ y1) (hy2 : 0 ≤ y2) :
    (segMA x1 x2 y1 y2).1 =
      (x2 - x1)^2 * (2*y2 + y1) / 6 + x1 * ((x2 - x1) * (y1 + y2) / 2) := by
  unfold segMA
  split_ifs with h1 h2 h3 h4
  · rcases h1 with ⟨hy1', hy2'⟩ | hx
    · rw [hy1', hy2']
      ring
    · exact absurd hx h
  · rw [← h2]
    ring
  · rw [h3]
    ring
  · rw [h4]
    ring
  · have hy1p : 0 < y1 := lt_of_le_of_ne hy1 (Ne.symm h3)
    have hy2p : 0 < y2 := lt_of_le_of_ne hy2 (Ne.symm h4)
    have hsum : y1 + y2 ≠ 0 := ne_of_gt (by linarith)
    field_simp
    ring

theorem areaSum_eq (y : ℕ → ℚ) :
    areaSum y = ∑ j in Finset.range 100, (y j + y (j+1)) / 200 := by
  unfold areaSum
  apply Finset.sum_congr rfl
  intro j _
  rw [segMA_snd_eq (grid_ne j), grid_delta]
  ring

theorem momentSum_eq (y : ℕ → ℚ) (hy : ∀ j, j ≤ 100 → 0 ≤ y j) :
    momentSum y = ∑ j in Finset.range 100,
      ((2 * y (j+1) + y j) / 60000 + (j : ℚ)/100 * ((y j + y (j+1)) / 200)) := by
  unfold momentSum
  apply Finset.sum_congr rfl
  intro j hj
  have hj' : j < 100 := Finset.mem_range.1 hj
  rw [segMA_fst_eq (grid_ne j) (hy j (by omega)) (hy (j+1) (by omega)), grid_delta]
  unfold grid
  ring

theorem areaSum_nonneg (y : ℕ → ℚ) (hy : ∀ j, j ≤ 100 → 0 ≤ y j) : 0 ≤ areaSum y := by
  rw [areaSum_eq]
  apply Finset.sum_nonneg
  intro j hj
  have hj' : j < 100 := Finset.mem_range.1 hj
  have h1 := hy j (by omega)
  have h2 := hy (j+1) (by omega)
  positivity

theorem areaSum_mono {y z : ℕ → ℚ} (h : ∀ j, j ≤ 100 → y j ≤ z j) : areaSum y ≤ areaSum z := by
  rw [areaSum_eq, areaSum_eq]
  apply Finset.sum_le_sum
  intro j hj
  have hj' : j < 100 := Finset.mem_range.1 hj
  have h1 := h j (by omega)
  have h2 := h (j+1) (by omega)
  linarith

theorem total_div_le_areaSum (y : ℕ → ℚ) (hy : ∀ j, j ≤ 100 → 0 ≤ y j) :
    (∑ j in Finset.range 101, y j) / 200 ≤ areaSum y := by
  rw [areaSum_eq]
  have hsplit : ∑ j in Finset.range 100, (y j + y (j+1)) / 200 =
      ((∑ j in Finset.range 100, y j) + ∑ j in Finset.range 100, y (j+1)) / 200 := by
    rw [← Finset.sum_add_distrib, ← Finset.sum_div]
  rw [hsplit]
  have hA : ∑ j in Finset.range 101, y j = (∑ j in Finset.range 100, y j) + y 100 :=
    Finset.sum_range_succ y 100
  have hB : ∑ j in Finset.range 101, y j = (∑ j in Finset.range 100, y (j+1)) + y 0 :=
    Finset.sum_range_succ' y 100
  have hC : ∑ j in Finset.range 100, y (j+1) =
      (∑ j in Finset.range 99, y (j+1)) + y 100 :=
    Finset.sum_range_succ (fun j => y (j+1)) 99
  have htail : 0 ≤ ∑ j in Finset.range 99, y (j+1) := by
    apply Finset.sum_nonneg
    intro j hj
    have hj' : j < 99 := Finset.mem_range.1 hj
    exact hy (j+1) (by omega)
  have h0 := hy 0 (by omega)
  have h100 := hy 100 (by omega)
  linarith

theorem areaSum_pos (y : ℕ → ℚ) (hy : ∀ j, j ≤ 100 → 0 ≤ y j)
    (hS : (∑ j in Finset.range 101, y j) ≠ 0) : 0 < areaSum y := by
  have hS0 : 0 < ∑ j in Finset.range 101, y j := by
    apply lt_of_le_of_ne _ (Ne.symm hS)
    apply Finset.sum_nonneg
    intro j hj
    have hj' : j < 101 := Finset.mem_range.1 hj
    exact hy j (by omega)
  calc (0:ℚ) < (∑ j in Finset.range 101, y j) / 200 := by positivity
    _ ≤ areaSum y := total_div_le_areaSum y hy

theorem momentSum_nonneg (y : ℕ → ℚ) (hy : ∀ j, j ≤ 100 → 0 ≤ y j) : 0 ≤ momentSum y := by
  rw [momentSum_eq y hy]
  apply Finset.sum_nonneg
  intro j hj
  have hj' : j < 100 := Finset.mem_range.1 hj
  have h1 := hy j (by omega)
  have h2 := hy (j+1) (by omega)
  positivity

theorem momentSum_le_areaSum (y : ℕ → ℚ) (hy : ∀ j, j ≤ 100 → 0 ≤ y j) :
    momentSum y ≤ areaSum y := by
  rw [momentSum_eq y hy, areaSum_eq]
  apply Finset.sum_le_sum
  intro j hj
  have hj' : j < 100 := Finset.mem_range.1 hj
  have h1 := hy j (by omega)
  have h2 := hy (j+1) (by omega)
  have hjc : (j:ℚ) ≤ 99 := by exact_mod_cast Nat.le_of_lt_succ hj'
  nlinarith [mul_le_mul_of_nonneg_right (show (j:ℚ)/100 ≤ 99/100 by linarith)
    (show (0:ℚ) ≤ (y j + y (j+1))/200 by positivity)]

end FuzzySystem

/-! ### Claim C1: behaviour when no rule fires -/

namespace FuzzySystem

theorem foldr_max_nonneg (l : List ℚ) : 0 ≤ l.foldr max 0 := by
  induction l with
  | nil => exact le_refl 0
  | cons a t ih => exact le_trans ih (le_max_right a _)

theorem foldr_max_eq_zero {l : List ℚ} (h : ∀ a ∈ l, a ≤ 0) : l.foldr max 0 = 0 := by
  induction l with
  | nil => rfl
  | cons a t ih =>
    show max a (t.foldr max 0) = 0
    rw [ih (fun b hb => h b (List.mem_cons_of_mem a hb))]
    exact max_eq_right (h a (List.mem_cons_self a t))

theorem aggAt_nonneg (p d pop i s l x : ℚ) : 0 ≤ aggAt p d pop i s l x :=
  foldr_max_nonneg _

theorem aggAt_eq_zero {p d pop i s l : ℚ}
    (h : ∀ r ∈ rules p d pop i s l, r.1 = 0) (x : ℚ) : aggAt p d pop i s l x = 0 := by
  unfold aggAt
  apply foldr_max_eq_zero
  intro a ha
  obtain ⟨r, hr, rfl⟩ := List.mem_map.1 ha
  rw [h r hr]
  exact min_le_left 0 _

end FuzzySystem

set_option maxRecDepth 4000000 in
/-- C1 counterexample: at the input combination
`(1, 1, 0.5, 1, 0.5, 0.5)` every one of the twelve rules has firing
strength zero, and `makeRecommendation` signals the defuzzification
error (no output) instead of returning the claimed neutral default
`(50.0, "medium")`. -/
theorem c1_counterexample :
    (∀ r ∈ FuzzySystem.rules 1 1 (1/2) 1 (1/2) (1/2), r.1 = 0) ∧
    FuzzySystem.makeRecommendation 1 1 (1/2) 1 (1/2) (1/2) = none ∧
    FuzzySystem.makeRecommendation 1 1 (1/2) 1 (1/2) (1/2) ≠ some ("medium", 50) :=
  ⟨of_decide_eq_true (by with_unfolding_all rfl),
   of_decide_eq_true (by with_unfolding_all rfl),
   of_decide_eq_true (by with_unfolding_all rfl)⟩

/-- C1 (amended): for every input combination for which no rule fires
(all twelve firing strengths zero after clipping the inputs into the
universe), the aggregated output set is empty and `makeRecommendation`
propagates the defuzzification failure (skfuzzy's
`Total area is zero` assertion re-raised as a `ValueError`) to the
caller instead of returning a `(50.0, "medium")` default. -/
theorem c1_amended_no_rule_fires (p d pop i s l : ℚ)
    (h : ∀ r ∈ FuzzySystem.rules (FuzzySystem.clampU p) (FuzzySystem.clampU d)
      (FuzzySystem.clampU pop) (FuzzySystem.clampU i) (FuzzySystem.clampU s)
      (FuzzySystem.clampU l), r.1 = 0) :
    FuzzySystem.makeRecommendation p d pop i s l = none := by
  have hz : (∑ j in Finset.range 101,
      FuzzySystem.aggGrid (FuzzySystem.clampU p) (FuzzySystem.clampU d) (FuzzySystem.clampU pop)
        (FuzzySystem.clampU i) (FuzzySystem.clampU s) (FuzzySystem.clampU l) j) = 0 :=
    Finset.sum_eq_zero (fun j _ => FuzzySystem.aggAt_eq_zero h (FuzzySystem.grid j))
  simp only [FuzzySystem.makeRecommendation, hz, if_pos]

set_option maxRecDepth 4000000 in
/-- Witness for C1 (amended) at the concrete rule gap
`(1, 1, 0.5, 1, 0.5, 0.5)`. -/
theorem c1_witness :
    FuzzySystem.makeRecommendation 1 1 (1/2) 1 (1/2) (1/2) = none :=
  c1_amended_no_rule_fires 1 1 (1/2) 1 (1/2) (1/2)
    (of_decide_eq_true (by with_unfolding_all rfl))

/-! ### Claim C9: label selection and percent range -/

namespace FuzzySystem

theorem clampU_of_mem {v : ℚ} (h0 : 0 ≤ v) (h1 : v ≤ 1) : clampU v = v := by
  unfold clampU
  rw [min_eq_right h1, max_eq_right h0]

/-- The fold implementing Python's first-maximum `max` over the three
labelled memberships, in closed form. -/
theorem argmax3 (l m h : ℚ) :
    argmax_first ("low", l) [("medium", m), ("high", h)] =
      if l < m then (if m < h then "high" else "medium")
      else (if l < h then "high" else "low") := by
  simp only [argmax_first]
  by_cases hlm : l < m <;> by_cases hmh : m < h <;> by_cases hlh : l < h <;>
    simp [hlm, hmh, hlh]

theorem getRecommendationLabel_eq_spec {v : ℚ} (h0 : 0 ≤ v) (h1 : v ≤ 1) :
    getRecommendationLabel v = SpecSide.spec_label v := by
  unfold getRecommendationLabel SpecSide.spec_label interp_out
  rw [clampU_of_mem h0 h1, argmax3]
  by_cases hlm : outLow v < outMed v
  · by_cases hmh : outMed v < outHigh v
    · rw [if_pos hlm, if_pos hmh,
        if_neg (fun hc => absurd hlm (not_lt.2 hc.1)), if_neg (not_le.2 hmh)]
    · rw [if_pos hlm, if_neg hmh,
        if_neg (fun hc => absurd hlm (not_lt.2 hc.1)), if_pos (not_lt.1 hmh)]
  · have hml : outMed v ≤ outLow v := not_lt.1 hlm
    by_cases hlh : outLow v < outHigh v
    · rw [if_neg hlm, if_pos hlh,
        if_neg (fun hc => absurd hlh (not_lt.2 hc.2)),
        if_neg (not_le.2 (lt_of_le_of_lt hml hlh))]
    · rw [if_neg hlm, if_neg hlh, if_pos ⟨hml, not_lt.1 hlh⟩]

theorem getRecommendationLabel_mem (v : ℚ) :
    getRecommendationLabel v = "low" ∨ getRecommendationLabel v = "medium" ∨
      getRecommendationLabel v = "high" := by
  unfold getRecommendationLabel interp_out
  rw [argmax3]
  split_ifs <;> simp

end FuzzySystem

/-- C9: the label returned for a crisp defuzzified value is the
low/medium/high label with the highest output membership at that value,
ties broken in favour of the earlier label in low → medium → high
order; and whenever `makeRecommendation` returns, its numeric component
is the crisp value scaled to a percentage in `[0, 100]` and the label is
the label of that crisp value. -/
theorem c9_label_and_percent :
    (∀ v : ℚ, 0 ≤ v → v ≤ 1 →
      FuzzySystem.getRecommendationLabel v = SpecSide.spec_label v) ∧
    (∀ p d pop i s l lab pct,
      FuzzySystem.makeRecommendation p d pop i s l = some (lab, pct) →
      lab = FuzzySystem.getRecommendationLabel (pct / 100) ∧
      (lab = "low" ∨ lab = "medium" ∨ lab = "high") ∧ 0 ≤ pct ∧ pct ≤ 100) := by
  constructor
  · intro v h0 h1
    exact FuzzySystem.getRecommendationLabel_eq_spec h0 h1
  · intro p d pop i s l lab pct hmk
    simp only [FuzzySystem.makeRecommendation] at hmk
    split at hmk
    · exact absurd hmk (by simp)
    · next hS =>
      rw [Option.some.injEq, Prod.mk.injEq] at hmk
      obtain ⟨hlab, hpct⟩ := hmk
      have hynn : ∀ j, j ≤ 100 → 0 ≤ FuzzySystem.aggGrid (FuzzySystem.clampU p)
          (FuzzySystem.clampU d) (FuzzySystem.clampU pop) (FuzzySystem.clampU i)
          (FuzzySystem.clampU s) (FuzzySystem.clampU l) j :=
        fun j _ => FuzzySystem.aggAt_nonneg _ _ _ _ _ _ _
      have hA := FuzzySystem.areaSum_pos _ hynn hS
      have hM0 := FuzzySystem.momentSum_nonneg _ hynn
      have hMA := FuzzySystem.momentSum_le_areaSum _ hynn
      set out : ℚ := FuzzySystem.momentSum (FuzzySystem.aggGrid (FuzzySystem.clampU p)
          (FuzzySystem.clampU d) (FuzzySystem.clampU pop) (FuzzySystem.clampU i)
          (FuzzySystem.clampU s) (FuzzySystem.clampU l)) /
        FuzzySystem.areaSum (FuzzySystem.aggGrid (FuzzySystem.clampU p)
          (FuzzySystem.clampU d) (FuzzySystem.clampU pop) (FuzzySystem.clampU i)
          (FuzzySystem.clampU s) (FuzzySystem.clampU l)) with hout
      have hout0 : 0 ≤ out := by
        rw [hout]
        exact div_nonneg hM0 hA.le
      have hout1 : out ≤ 1 := by
        rw [hout]
        exact (div_le_one hA).2 hMA
      refine ⟨?_, ?_, ?_, ?_⟩
      · rw [← hlab, ← hpct]
        have h100 : out * 100 / 100 = out := by ring
        rw [h100]
      · rw [← hlab]
        exact FuzzySystem.getRecommendationLabel_mem out
      · rw [← hpct]
        exact mul_nonneg hout0 (by norm_num)
      · rw [← hpct]
        linarith

set_option maxRecDepth 1000000 in
/-- Witness for C9: at the all-`0.5` input the engine returns the label
`"medium"` with percent `160/3`, and the theorem's conclusions hold
there. -/
theorem c9_witness :
    ("medium" : String) = FuzzySystem.getRecommendationLabel ((160/3 : ℚ) / 100) ∧
    (("medium" : String) = "low" ∨ ("medium" : String) = "medium" ∨
      ("medium" : String) = "high") ∧
    (0 : ℚ) ≤ 160/3 ∧ (160/3 : ℚ) ≤ 100 :=
  c9_label_and_percent.2 (1/2) (1/2) (1/2) (1/2) (1/2) (1/2) "medium" (160/3)
    (of_decide_eq_true (by with_unfolding_all rfl))

/-! ### Claim C10: monotonicity in the interest score -/

namespace FuzzySystem

theorem inHigh_le_one (x : ℚ) : inHigh x ≤ 1 := trimf_le_one (3/5) 1 1 x

/-- With the other five inputs at `0.5`, the aggregated output membership
collapses to the `medium` lobe joined with the `low` lobe clipped at the
interest input's `low`-membership: of the twelve rules only the two
disjunctive catch-alls and the `medium`-conjunction fire, and the latter
two contribute the full `medium` lobe. -/
theorem aggGrid_half (a : ℚ) (j : ℕ) :
    aggGrid (1/2) (1/2) (1/2) a (1/2) (1/2) j = aggHalf (inLow a) j := by
  have hIL : inLow (1/2 : ℚ) = 0 := by norm_num [inLow, trimf]
  have hIM : inMed (1/2 : ℚ) = 1 := by norm_num [inMed, trimf]
  have hIH : inHigh (1/2 : ℚ) = 0 := by norm_num [inHigh, trimf]
  have h01 : min (0:ℚ) 1 = 0 := by norm_num
  unfold aggGrid aggAt rules aggHalf medGrid
  rw [hIL, hIM, hIH]
  simp only [List.map, List.foldr, min_self, max_self, h01,
    min_eq_left (inHigh_nonneg a), min_eq_left (inMed_nonneg a), min_eq_left (inLow_nonneg a),
    min_eq_left (inHigh_le_one a), min_eq_right (inHigh_nonneg a),
    min_eq_right (inMed_le_one a), max_eq_left (inMed_le_one a),
    max_eq_right (inLow_nonneg a),
    min_eq_left (outHigh_nonneg (grid j)), min_eq_left (outMed_nonneg (grid j)),
    min_eq_left (outLow_nonneg (grid j)), min_eq_right (outMed_le_one (grid j)),
    max_eq_left (le_min (inLow_nonneg a) (outLow_nonneg (grid j))),
    max_eq_right (le_trans (outMed_nonneg (grid j))
      (le_max_left (outMed (grid j)) (min (inLow a) (outLow (grid j))))),
    max_eq_right (le_trans (min_le_right (inMed a) (outMed (grid j)))
      (le_max_left (outMed (grid j)) (min (inLow a) (outLow (grid j)))))]

/-- The input-side `low` membership function is antitone on `[0, 1]`. -/
theorem inLow_antitone {s t : ℚ} (hs : 0 ≤ s) (hst : s ≤ t) : inLow t ≤ inLow s := by
  unfold inLow trimf
  by_cases ht0 : t = 0
  · have hs0 : s = 0 := le_antisymm (ht0 ▸ hst) hs
    rw [ht0, hs0]
  · rw [if_neg ht0, if_neg (fun hc => absurd (lt_trans hc.1 hc.2) (lt_irrefl 0))]
    by_cases ht4 : 0 < t ∧ t < 2/5
    · rw [if_pos ht4]
      by_cases hs0 : s = 0
      · rw [if_pos hs0]
        rw [div_le_one (by norm_num)]
        linarith [ht4.1]
      · have hspos : 0 < s := lt_of_le_of_ne hs (Ne.symm hs0)
        rw [if_neg hs0, if_neg (fun hc => absurd (lt_trans hc.1 hc.2) (lt_irrefl 0)),
          if_pos ⟨hspos, lt_of_le_of_lt hst ht4.2⟩]
        rw [div_le_div_iff_of_pos_right (by norm_num)]
        linarith
    · rw [if_neg ht4]
      exact trimf_nonneg 0 0 (2/5) s

theorem aggHalf_nonneg (s : ℚ) (j : ℕ) : 0 ≤ aggHalf s j :=
  le_trans (outMed_nonneg _) (le_max_left _ _)

theorem medGrid_le_aggHalf (s : ℚ) (j : ℕ) : medGrid j ≤ aggHalf s j := le_max_left _ _

theorem aggHalf_le_med_add_E (s : ℚ) (j : ℕ) : aggHalf s j ≤ medGrid j + EGrid j := by
  unfold aggHalf medGrid EGrid
  apply max_le
  · linarith [le_max_left (0:ℚ) (outLow (grid j) - outMed (grid j))]
  · calc min s (outLow (grid j)) ≤ outLow (grid j) := min_le_right _ _
      _ ≤ outMed (grid j) + max 0 (outLow (grid j) - outMed (grid j)) := by
          linarith [le_max_right (0:ℚ) (outLow (grid j) - outMed (grid j))]

/-- On the right part of the universe (`j ≥ 35`) the `low` output lobe
sits below the `medium` one. -/
theorem lowmed_tail : ∀ j, j < 101 → 35 ≤ j → outLow (grid j) ≤ outMed (grid j) :=
  of_decide_eq_true (by with_unfolding_all rfl)

theorem aggHalf_eq_med (s : ℚ) {j : ℕ} (h35 : 35 ≤ j) (h100 : j ≤ 100) :
    aggHalf s j = medGrid j := by
  unfold aggHalf medGrid
  apply max_eq_left
  calc min s (outLow (grid j)) ≤ outLow (grid j) := min_le_right _ _
    _ ≤ outMed (grid j) := lowmed_tail j (by omega) h35

theorem aggHalf_mono {s t : ℚ} (hst : s ≤ t) (j : ℕ) : aggHalf s j ≤ aggHalf t j :=
  max_le_max (le_refl _) (min_le_min_right _ hst)

theorem EGrid_nonneg (j : ℕ) : 0 ≤ EGrid j := le_max_left 0 _

theorem EGrid_tail {j : ℕ} (h35 : 35 ≤ j) (h100 : j ≤ 100) : EGrid j = 0 := by
  unfold EGrid
  apply max_eq_left
  linarith [lowmed_tail j (by omega) h35]

theorem areaSum_sub_eq (y z : ℕ → ℚ) :
    areaSum y = areaSum z + areaSum (fun j => y j - z j) := by
  rw [areaSum_eq, areaSum_eq, areaSum_eq, ← Finset.sum_add_distrib]
  apply Finset.sum_congr rfl
  intro j _
  ring

theorem momentSum_sub_eq (y z : ℕ → ℚ) (hy : ∀ j, j ≤ 100 → 0 ≤ y j)
    (hz : ∀ j, j ≤ 100 → 0 ≤ z j) (hzy : ∀ j, j ≤ 100 → z j ≤ y j) :
    momentSum y = momentSum z + momentSum (fun j => y j - z j) := by
  rw [momentSum_eq y hy, momentSum_eq z hz,
    momentSum_eq _ (fun j hj => by have h1 := hzy j hj; linarith),
    ← Finset.sum_add_distrib]
  apply Finset.sum_congr rfl
  intro j _
  ring

/-- A non-negative membership profile supported on the left part of the
universe (`j ≤ 34`) has its centroid mass left of `0.35`: its moment sum
is at most `7/20` of its area sum. -/
theorem momentSum_left_le (d : ℕ → ℚ) (hd0 : ∀ j, j ≤ 100 → 0 ≤ d j)
    (hdz : ∀ j, 35 ≤ j → j ≤ 100 → d j = 0) :
    momentSum d ≤ (7/20) * areaSum d := by
  rw [momentSum_eq d hd0, areaSum_eq, Finset.mul_sum]
  apply Finset.sum_le_sum
  intro j hj
  have hj' : j < 100 := Finset.mem_range.1 hj
  by_cases h35 : 35 ≤ j
  · rw [hdz j h35 (by omega), hdz (j+1) (by omega) (by omega)]
    norm_num
  · push_neg at h35
    have hjc : (j:ℚ) ≤ 34 := by exact_mod_cast Nat.lt_succ_iff.1 h35
    have hy1 := hd0 j (by omega)
    have hy2 := hd0 (j+1) (by omega)
    nlinarith [mul_le_mul_of_nonneg_right (show (j:ℚ)/100 ≤ 34/100 by linarith)
      (show (0:ℚ) ≤ (d j + d (j+1))/200 by positivity)]

end FuzzySystem

namespace FuzzySystem

set_option maxRecDepth 1000000 in
/-- A membership profile that dominates the `medium` lobe, coincides
with it from `j = 35` on, and exceeds it by at most the `low` surplus
`EGrid`, keeps its centroid right of `0.35`: its moment sum is at least
`7/20` of its area sum.  The constant margin of the pure `medium` lobe
(whose centroid is `8/15`) absorbs the worst-case left surplus. -/
theorem momentSum_med_anchored (g : ℕ → ℚ)
    (hlow : ∀ j, j ≤ 100 → medGrid j ≤ g j)
    (hhigh : ∀ j, j ≤ 100 → g j ≤ medGrid j + EGrid j)
    (heq : ∀ j, 35 ≤ j → j ≤ 100 → g j = medGrid j) :
    (7/20) * areaSum g ≤ momentSum g := by
  have hgnn : ∀ j, j ≤ 100 → 0 ≤ g j := fun j hj =>
    le_trans (outMed_nonneg _) (hlow j hj)
  rw [momentSum_eq g hgnn, areaSum_eq, Finset.mul_sum, ← sub_nonneg, ← Finset.sum_sub_distrib]
  have hperterm : ∀ j ∈ Finset.range 100,
      ((2 * medGrid (j+1) + medGrid j) / 60000
        + (j : ℚ)/100 * ((medGrid j + medGrid (j+1)) / 200)
        - 7/20 * ((medGrid j + medGrid (j+1)) / 200))
      - (7/20 * ((EGrid j + EGrid (j+1)) / 200)
        - ((2 * EGrid (j+1) + EGrid j) / 60000
          + (j : ℚ)/100 * ((EGrid j + EGrid (j+1)) / 200)))
      ≤ (2 * g (j+1) + g j) / 60000 + (j : ℚ)/100 * ((g j + g (j+1)) / 200)
        - 7/20 * ((g j + g (j+1)) / 200) := by
    intro j hj
    have hj' : j < 100 := Finset.mem_range.1 hj
    by_cases h35 : 35 ≤ j
    · have hz1 : g j = medGrid j := heq j h35 (by omega)
      have hz2 : g (j+1) = medGrid (j+1) := heq (j+1) (by omega) (by omega)
      have hE1 : EGrid j = 0 := EGrid_tail h35 (by omega)
      have hE2 : EGrid (j+1) = 0 := EGrid_tail (by omega) (by omega)
      rw [hz1, hz2, hE1, hE2]
      ring_nf
      linarith
    · push_neg at h35
      have hjc : (j:ℚ) ≤ 34 := by exact_mod_cast Nat.lt_succ_iff.1 h35
      have he1 : g j - medGrid j ≤ EGrid j := by
        have := hhigh j (by omega)
        linarith
      have he2 : g (j+1) - medGrid (j+1) ≤ EGrid (j+1) := by
        have := hhigh (j+1) (by omega)
        linarith
      have c1 : (0:ℚ) ≤ 7/4000 - (j:ℚ)/20000 - 1/60000 := by linarith
      have c2 : (0:ℚ) ≤ 7/4000 - (j:ℚ)/20000 - 2/60000 := by linarith
      nlinarith [mul_le_mul_of_nonneg_left he1 c1, mul_le_mul_of_nonneg_left he2 c2]
  have hsum := Finset.sum_le_sum hperterm
  have hconc : (0:ℚ) ≤ ∑ j in Finset.range 100,
      (((2 * medGrid (j+1) + medGrid j) / 60000
        + (j : ℚ)/100 * ((medGrid j + medGrid (j+1)) / 200)
        - 7/20 * ((medGrid j + medGrid (j+1)) / 200))
      - (7/20 * ((EGrid j + EGrid (j+1)) / 200)
        - ((2 * EGrid (j+1) + EGrid j) / 60000
          + (j : ℚ)/100 * ((EGrid j + EGrid (j+1)) / 200)))) :=
    of_decide_eq_true (by with_unfolding_all rfl)
  linarith

end FuzzySystem

set_option maxRecDepth 1000000 in
open FuzzySystem in
/-- C10: with the other five scores held at `0.5`, the percent returned
by `makeRecommendation` is monotone in the interest score — raising
interest from `i1` to `i2` never decreases the output percent.  Raising
interest only shrinks the `low` lobe of the aggregated output (mass that
lies entirely left of `0.35`), while the always-firing `medium` lobe
keeps the centroid right of `0.35`, so the centroid can only move
right. -/
theorem c10_interest_monotone (i1 i2 : ℚ) (h0 : 0 ≤ i1) (h12 : i1 ≤ i2) (h1 : i2 ≤ 1) :
    ∃ l1 p1 l2 p2,
      makeRecommendation (1/2) (1/2) (1/2) i1 (1/2) (1/2) = some (l1, p1) ∧
      makeRecommendation (1/2) (1/2) (1/2) i2 (1/2) (1/2) = some (l2, p2) ∧
      p1 ≤ p2 := by
  have hc : clampU (1/2 : ℚ) = 1/2 := by norm_num [clampU]
  have hci1 : clampU i1 = i1 := clampU_of_mem h0 (le_trans h12 h1)
  have hci2 : clampU i2 = i2 := clampU_of_mem (le_trans h0 h12) h1
  have hg1 : aggGrid (clampU (1/2 : ℚ)) (clampU (1/2)) (clampU (1/2)) (clampU i1)
      (clampU (1/2)) (clampU (1/2)) = aggHalf (inLow i1) := by
    funext j
    rw [hc, hci1]
    exact aggGrid_half i1 j
  have hg2 : aggGrid (clampU (1/2 : ℚ)) (clampU (1/2)) (clampU (1/2)) (clampU i2)
      (clampU (1/2)) (clampU (1/2)) = aggHalf (inLow i2) := by
    funext j
    rw [hc, hci2]
    exact aggGrid_half i2 j
  have hs : inLow i2 ≤ inLow i1 := inLow_antitone h0 h12
  have hnn1 : ∀ j, j ≤ 100 → 0 ≤ aggHalf (inLow i1) j := fun j _ => aggHalf_nonneg _ _
  have hnn2 : ∀ j, j ≤ 100 → 0 ≤ aggHalf (inLow i2) j := fun j _ => aggHalf_nonneg _ _
  have h21 : ∀ j, j ≤ 100 → aggHalf (inLow i2) j ≤ aggHalf (inLow i1) j :=
    fun j _ => aggHalf_mono hs j
  have hd0 : ∀ j, j ≤ 100 → 0 ≤ aggHalf (inLow i1) j - aggHalf (inLow i2) j :=
    fun j hj => by linarith [h21 j hj]
  have hdz : ∀ j, 35 ≤ j → j ≤ 100 →
      aggHalf (inLow i1) j - aggHalf (inLow i2) j = 0 := by
    intro j h35 h100
    rw [aggHalf_eq_med _ h35 h100, aggHalf_eq_med _ h35 h100]
    ring
  have hdA : momentSum (fun j => aggHalf (inLow i1) j - aggHalf (inLow i2) j) ≤
      (7/20) * areaSum (fun j => aggHalf (inLow i1) j - aggHalf (inLow i2) j) :=
    momentSum_left_le _ hd0 hdz
  have hB : (7/20) * areaSum (aggHalf (inLow i2)) ≤ momentSum (aggHalf (inLow i2)) :=
    momentSum_med_anchored _ (fun j _ => medGrid_le_aggHalf _ j)
      (fun j _ => aggHalf_le_med_add_E _ j) (fun j h35 h100 => aggHalf_eq_med _ h35 h100)
  have hmed14 : areaSum medGrid = 1/4 := of_decide_eq_true (by with_unfolding_all rfl)
  have hA2 : 0 < areaSum (aggHalf (inLow i2)) := by
    have hm := areaSum_mono (fun j (_ : j ≤ 100) => medGrid_le_aggHalf (inLow i2) j)
    rw [hmed14] at hm
    linarith
  have hAd : 0 ≤ areaSum (fun j => aggHalf (inLow i1) j - aggHalf (inLow i2) j) :=
    areaSum_nonneg _ hd0
  have hsub : areaSum (aggHalf (inLow i1)) = areaSum (aggHalf (inLow i2)) +
      areaSum (fun j => aggHalf (inLow i1) j - aggHalf (inLow i2) j) :=
    areaSum_sub_eq _ _
  have hA1 : 0 < areaSum (aggHalf (inLow i1)) := by
    rw [hsub]
    linarith
  have hMsub : momentSum (aggHalf (inLow i1)) = momentSum (aggHalf (inLow i2)) +
      momentSum (fun j => aggHalf (inLow i1) j - aggHalf (inLow i2) j) :=
    momentSum_sub_eq _ _ hnn1 hnn2 h21
  have hkey : momentSum (aggHalf (inLow i1)) * areaSum (aggHalf (inLow i2)) ≤
      momentSum (aggHalf (inLow i2)) * areaSum (aggHalf (inLow i1)) := by
    rw [hMsub, hsub]
    nlinarith [mul_le_mul_of_nonneg_right hdA hA2.le, mul_le_mul_of_nonneg_left hB hAd]
  have hout : momentSum (aggHalf (inLow i1)) / areaSum (aggHalf (inLow i1)) ≤
      momentSum (aggHalf (inLow i2)) / areaSum (aggHalf (inLow i2)) :=
    (div_le_div_iff₀ hA1 hA2).2 hkey
  have hmed50 : medGrid 50 = 1 := by norm_num [medGrid, outMed, trimf, grid]
  have htot : ∀ s : ℚ, (∑ j in Finset.range 101, aggHalf s j) ≠ 0 := by
    intro s hzero
    have h50 : (1:ℚ) ≤ aggHalf s 50 := by
      have := medGrid_le_aggHalf s 50
      rw [hmed50] at this
      exact this
    have hle : aggHalf s 50 ≤ ∑ j in Finset.range 101, aggHalf s j :=
      Finset.single_le_sum (fun j _ => aggHalf_nonneg s j)
        (Finset.mem_range.2 (by omega))
    rw [hzero] at hle
    linarith
  refine ⟨getRecommendationLabel (momentSum (aggHalf (inLow i1)) / areaSum (aggHalf (inLow i1))),
    momentSum (aggHalf (inLow i1)) / areaSum (aggHalf (inLow i1)) * 100,
    getRecommendationLabel (momentSum (aggHalf (inLow i2)) / areaSum (aggHalf (inLow i2))),
    momentSum (aggHalf (inLow i2)) / areaSum (aggHalf (inLow i2)) * 100, ?_, ?_, ?_⟩
  · simp only [makeRecommendation]
    rw [hg1, if_neg (htot (inLow i1))]
  · simp only [makeRecommendation]
    rw [hg2, if_neg (htot (inLow i2))]
  · linarith

/-- Witness for C10 at the extreme pair `i1 = 0`, `i2 = 1`. -/
theorem c10_witness :
    (0:ℚ) ≤ 0 ∧ (0:ℚ) ≤ 1 ∧ (1:ℚ) ≤ 1 ∧
    ∃ l1 p1 l2 p2,
      FuzzySystem.makeRecommendation (1/2) (1/2) (1/2) 0 (1/2) (1/2) = some (l1, p1) ∧
      FuzzySystem.makeRecommendation (1/2) (1/2) (1/2) 1 (1/2) (1/2) = some (l2, p2) ∧
      p1 ≤ p2 :=
  ⟨le_refl 0, zero_le_one, le_refl 1,
   c10_interest_monotone 0 1 (le_refl 0) zero_le_one (le_refl 1)⟩
